import Mathlib

/-!
Verification of the Arrow C Data Interface adapter
(`Sources/ArrowC/ArrowCData.c` and `Sources/ArrowC/include/ArrowCData.h`).

The C code defines the two fixed-layout descriptor structs `ArrowSchema`
and `ArrowArray`, the three flag constants, and two helper operations
`ArrowSwiftClearReleaseSchema` / `ArrowSwiftClearReleaseArray` that set a
descriptor's `release` callback field to `NULL` when the passed pointer is
non-null and do nothing otherwise.

Modelling choices:
- C pointers are modelled as `Nat` addresses with `0` playing the role of
  `NULL`; in particular the `release` function-pointer field is a `Nat`
  and the null sentinel is `0`.
- A pointer argument to an operation is modelled as `Option` of the
  pointed-to struct value: `none` is a null reference, `some s` a non-null
  reference to a descriptor holding `s`.
- An instrumented variant of each operation additionally returns the list
  of observable memory effects the C body performs, drawn from a small
  effect alphabet `CStep`; the C body of each operation performs exactly
  one store (of the `release` field) on a non-null argument and nothing
  on a null argument.
- A heap-based variant models the operation as acting on an explicit
  heap `Nat → Option struct`, for claims about framing and determinism.
-/

/-- Observable effects a C operation body can perform, used by the
instrumented semantics.  `storeRelease` is the single store of the
`release` field that the clear operations perform; the other
constructors (callback invocation, deallocation, memory read, blocking,
suspension) are part of the effect alphabet so that their absence from a
trace is a meaningful statement. -/
inductive CStep where
  | storeRelease : CStep
  | callRelease : CStep
  | freeMem : CStep
  | readMem : CStep
  | block : CStep
  | suspend : CStep
deriving DecidableEq, Repr

/-- The `ArrowSchema` struct of `include/ArrowCData.h`: fields `format`,
`name`, `metadata` (C strings, modelled as addresses), `flags` and
`n_children` (`int64_t`), `children`, `dictionary` (pointers),
`release` (function pointer, `0` = `NULL`) and `private_data`. -/
structure ArrowSchema where
  format : Nat
  name : Nat
  metadata : Nat
  flags : Int
  n_children : Int
  children : Nat
  dictionary : Nat
  release : Nat
  private_data : Nat
deriving DecidableEq, Repr

/-- The `ArrowArray` struct of `include/ArrowCData.h`: `length`,
`null_count`, `offset`, `n_buffers`, `n_children` (`int64_t`), then
`buffers`, `children`, `dictionary` (pointers), `release` (function
pointer, `0` = `NULL`) and `private_data`. -/
structure ArrowArray where
  length : Int
  null_count : Int
  offset : Int
  n_buffers : Int
  n_children : Int
  buffers : Nat
  children : Nat
  dictionary : Nat
  release : Nat
  private_data : Nat
deriving DecidableEq, Repr

/-- `ArrowSwiftClearReleaseSchema` from `ArrowCData.c`:
`if(arrowSchema) { arrowSchema->release = NULL; }`. -/
def ArrowSwiftClearReleaseSchema : Option ArrowSchema → Option ArrowSchema
  | none => none
  | some s => some { s with release := 0 }

/-- `ArrowSwiftClearReleaseArray` from `ArrowCData.c`:
`if(arrowArray) { arrowArray->release = NULL; }`. -/
def ArrowSwiftClearReleaseArray : Option ArrowArray → Option ArrowArray
  | none => none
  | some a => some { a with release := 0 }

/-- Instrumented semantics of `ArrowSwiftClearReleaseSchema`: the result
together with the list of memory effects the C body performs.  The null
branch performs no effect at all; the non-null branch performs exactly
the single store of the `release` field. -/
def ArrowSwiftClearReleaseSchemaTrace (p : Option ArrowSchema) :
    Option ArrowSchema × List CStep :=
  match p with
  | none => (none, [])
  | some s => (some { s with release := 0 }, [CStep.storeRelease])

/-- Instrumented semantics of `ArrowSwiftClearReleaseArray`, as for the
schema variant. -/
def ArrowSwiftClearReleaseArrayTrace (p : Option ArrowArray) :
    Option ArrowArray × List CStep :=
  match p with
  | none => (none, [])
  | some a => (some { a with release := 0 }, [CStep.storeRelease])

/-- Heap-based semantics of `ArrowSwiftClearReleaseSchema`: the heap maps
addresses to schema structs (`none` for unmapped addresses), the pointer
argument is an address with `0` = `NULL`.  A null pointer leaves the heap
untouched; a non-null pointer updates only the pointed-to cell, setting
its `release` field to `0`. -/
def ArrowSwiftClearReleaseSchemaHeap (h : Nat → Option ArrowSchema)
    (p : Nat) : Nat → Option ArrowSchema :=
  if p = 0 then h
  else fun q =>
    if q = p then (h p).map (fun s => { s with release := 0 }) else h q

/-- Heap-based semantics of `ArrowSwiftClearReleaseArray`, as for the
schema variant. -/
def ArrowSwiftClearReleaseArrayHeap (h : Nat → Option ArrowArray)
    (p : Nat) : Nat → Option ArrowArray :=
  if p = 0 then h
  else fun q =>
    if q = p then (h p).map (fun a => { a with release := 0 }) else h q

/-- `#define ARROW_FLAG_DICTIONARY_ORDERED 1` from the header. -/
def ARROW_FLAG_DICTIONARY_ORDERED : Int := 1

/-- `#define ARROW_FLAG_NULLABLE 2` from the header. -/
def ARROW_FLAG_NULLABLE : Int := 2

/-- `#define ARROW_FLAG_MAP_KEYS_SORTED 4` from the header. -/
def ARROW_FLAG_MAP_KEYS_SORTED : Int := 4

/-- The C field types occurring in the two structs of the header. -/
inductive CType where
  | int64 : CType
  | constCharPtr : CType
  | schemaPtrPtr : CType
  | schemaPtr : CType
  | arrayPtrPtr : CType
  | arrayPtr : CType
  | constVoidPtrPtr : CType
  | voidPtr : CType
  | schemaReleaseFn : CType
  | arrayReleaseFn : CType
deriving DecidableEq, Repr

/-- The declared fields of `struct ArrowSchema`, in declaration order,
transcribed from `include/ArrowCData.h`. -/
def ArrowSchemaFields : List (String × CType) :=
  [("format", CType.constCharPtr),
   ("name", CType.constCharPtr),
   ("metadata", CType.constCharPtr),
   ("flags", CType.int64),
   ("n_children", CType.int64),
   ("children", CType.schemaPtrPtr),
   ("dictionary", CType.schemaPtr),
   ("release", CType.schemaReleaseFn),
   ("private_data", CType.voidPtr)]

/-- The declared fields of `struct ArrowArray`, in declaration order,
transcribed from `include/ArrowCData.h`. -/
def ArrowArrayFields : List (String × CType) :=
  [("length", CType.int64),
   ("null_count", CType.int64),
   ("offset", CType.int64),
   ("n_buffers", CType.int64),
   ("n_children", CType.int64),
   ("buffers", CType.constVoidPtrPtr),
   ("children", CType.arrayPtrPtr),
   ("dictionary", CType.arrayPtr),
   ("release", CType.arrayReleaseFn),
   ("private_data", CType.voidPtr)]

/-- Modelled from the spec: the field order of the schema descriptor as
published by the C Data Interface specification (format, name, metadata,
flags, n_children, children, dictionary, then trailing release and
private_data). -/
def specSchemaFieldOrder : List String :=
  ["format", "name", "metadata", "flags", "n_children", "children",
   "dictionary", "release", "private_data"]

/-- Modelled from the spec: the field order of the array-data descriptor
as published by the C Data Interface specification (length, null_count,
offset, n_buffers, n_children, buffers, children, dictionary, then
trailing release and private_data). -/
def specArrayFieldOrder : List String :=
  ["length", "null_count", "offset", "n_buffers", "n_children", "buffers",
   "children", "dictionary", "release", "private_data"]

/-- Release events of the spec's release protocol: `clearRelease i` is
the write of the null sentinel into node `i`'s own `release` field,
`freeNode i` the deallocation of node `i` itself. -/
inductive REvent where
  | clearRelease : Nat → REvent
  | freeNode : Nat → REvent
deriving DecidableEq, Repr

mutual
/-- Modelled from the spec: the release callback bodies are not part of
the source (the spec notes the release implementations belong to
producer code outside this excerpt), so descriptor ownership trees are
modelled abstractly: a node has an identity, an ordered forest of owned
children and an optional owned dictionary node. -/
inductive DTree where
  | node : Nat → DForest → DDict → DTree
deriving DecidableEq, Repr
/-- An ordered forest of owned child descriptor nodes. -/
inductive DForest where
  | nil : DForest
  | cons : DTree → DForest → DForest
deriving DecidableEq, Repr
/-- An optional owned dictionary descriptor node. -/
inductive DDict where
  | nodict : DDict
  | dict : DTree → DDict
deriving DecidableEq, Repr
end

mutual
/-- Modelled from the spec: the event trace of a conforming release
implementation on a live node — recursively release every child in
`children` (children's own children first), release the dictionary if
present, then set the node's own `release` field to null before
deallocating the node itself. -/
def releaseEvents : DTree → List REvent
  | DTree.node i cs d =>
      releaseEventsF cs ++ releaseEventsD d ++
        [REvent.clearRelease i, REvent.freeNode i]
/-- Release-event trace of a forest of children, in order. -/
def releaseEventsF : DForest → List REvent
  | DForest.nil => []
  | DForest.cons t ts => releaseEvents t ++ releaseEventsF ts
/-- Release-event trace of an optional dictionary node. -/
def releaseEventsD : DDict → List REvent
  | DDict.nodict => []
  | DDict.dict t => releaseEvents t
end

mutual
/-- The order in which nodes of a tree are released (deallocated) by the
spec's release protocol: children first, then the dictionary, then the
node itself. -/
def releaseOrder : DTree → List Nat
  | DTree.node i cs d => releaseOrderF cs ++ releaseOrderD d ++ [i]
/-- Release order of a forest. -/
def releaseOrderF : DForest → List Nat
  | DForest.nil => []
  | DForest.cons t ts => releaseOrder t ++ releaseOrderF ts
/-- Release order of an optional dictionary node. -/
def releaseOrderD : DDict → List Nat
  | DDict.nodict => []
  | DDict.dict t => releaseOrder t
end

mutual
/-- All node identities of a tree (root first). -/
def nodesOf : DTree → List Nat
  | DTree.node i cs d => i :: (nodesOfF cs ++ nodesOfD d)
/-- All node identities of a forest. -/
def nodesOfF : DForest → List Nat
  | DForest.nil => []
  | DForest.cons t ts => nodesOf t ++ nodesOfF ts
/-- All node identities of an optional dictionary node. -/
def nodesOfD : DDict → List Nat
  | DDict.nodict => []
  | DDict.dict t => nodesOf t
end

/-- The root identity of a tree. -/
def rootOf : DTree → Nat
  | DTree.node i _ _ => i

/-- The root identities of the trees of a forest. -/
def rootsOfF : DForest → List Nat
  | DForest.nil => []
  | DForest.cons t ts => rootOf t :: rootsOfF ts

/-- The root identities of an optional dictionary node. -/
def rootsOfD : DDict → List Nat
  | DDict.nodict => []
  | DDict.dict t => [rootOf t]

mutual
/-- The ownership edges of a tree, as pairs `(owned node, owner node)`:
each direct child and the dictionary node are owned by the node, and
edges recur into the subtrees. -/
def edgesOf : DTree → List (Nat × Nat)
  | DTree.node i cs d =>
      (rootsOfF cs ++ rootsOfD d).map (fun c => (c, i)) ++
        (edgesOfF cs ++ edgesOfD d)
/-- Ownership edges of a forest. -/
def edgesOfF : DForest → List (Nat × Nat)
  | DForest.nil => []
  | DForest.cons t ts => edgesOf t ++ edgesOfF ts
/-- Ownership edges of an optional dictionary node. -/
def edgesOfD : DDict → List (Nat × Nat)
  | DDict.nodict => []
  | DDict.dict t => edgesOf t
end

mutual
/-- The release order of a tree is a permutation of its node set. -/
theorem releaseOrder_perm (t : DTree) : (releaseOrder t).Perm (nodesOf t) := by
  cases t with
  | node i cs d =>
      have h1 := releaseOrderF_perm cs
      have h2 := releaseOrderD_perm d
      have h3 : (releaseOrderF cs ++ releaseOrderD d).Perm
          (nodesOfF cs ++ nodesOfD d) := h1.append h2
      have h4 : ((releaseOrderF cs ++ releaseOrderD d) ++ [i]).Perm
          ([i] ++ (releaseOrderF cs ++ releaseOrderD d)) :=
        List.perm_append_comm
      have h5 : ([i] ++ (releaseOrderF cs ++ releaseOrderD d)).Perm
          ([i] ++ (nodesOfF cs ++ nodesOfD d)) := h3.append_left [i]
      have h6 := h4.trans h5
      simpa [releaseOrder, nodesOf] using h6
/-- Forest version of `releaseOrder_perm`. -/
theorem releaseOrderF_perm (f : DForest) : (releaseOrderF f).Perm (nodesOfF f) := by
  cases f with
  | nil => simp [releaseOrderF, nodesOfF]
  | cons t ts =>
      have h1 := releaseOrder_perm t
      have h2 := releaseOrderF_perm ts
      simpa [releaseOrderF, nodesOfF] using h1.append h2
/-- Dictionary version of `releaseOrder_perm`. -/
theorem releaseOrderD_perm (d : DDict) : (releaseOrderD d).Perm (nodesOfD d) := by
  cases d with
  | nodict => simp [releaseOrderD, nodesOfD]
  | dict t => simpa [releaseOrderD, nodesOfD] using releaseOrder_perm t
end

/-- The root of a tree occurs in its release order. -/
theorem rootOf_mem_releaseOrder (t : DTree) : rootOf t ∈ releaseOrder t := by
  cases t with
  | node i cs d => simp [releaseOrder, rootOf]

/-- A root of a forest tree occurs in the forest release order. -/
theorem rootsF_mem_releaseOrderF :
    ∀ f : DForest, ∀ c ∈ rootsOfF f, c ∈ releaseOrderF f
  | DForest.nil => by simp [rootsOfF]
  | DForest.cons t ts => by
      intro c hc
      simp only [rootsOfF, List.mem_cons] at hc
      rcases hc with h | h
      · subst h
        simp only [releaseOrderF, List.mem_append]
        exact Or.inl (rootOf_mem_releaseOrder t)
      · simp only [releaseOrderF, List.mem_append]
        exact Or.inr (rootsF_mem_releaseOrderF ts c h)

/-- The root of a dictionary node occurs in the dictionary release order. -/
theorem rootsD_mem_releaseOrderD :
    ∀ d : DDict, ∀ c ∈ rootsOfD d, c ∈ releaseOrderD d := by
  intro d c hc
  cases d with
  | nodict => simp [rootsOfD] at hc
  | dict t =>
      simp only [rootsOfD, List.mem_singleton] at hc
      subst hc
      exact rootOf_mem_releaseOrder t

/-- Projection of a release-event trace onto the deallocated node
identities. -/
def freesOf (l : List REvent) : List Nat :=
  l.filterMap (fun e =>
    match e with
    | REvent.freeNode i => some i
    | REvent.clearRelease _ => none)

/-- `freesOf` distributes over list append. -/
theorem freesOf_append (l1 l2 : List REvent) :
    freesOf (l1 ++ l2) = freesOf l1 ++ freesOf l2 := by
  simp [freesOf, List.filterMap_append]

mutual
/-- The deallocations in a release-event trace occur exactly in the
release order. -/
theorem freesOf_releaseEvents (t : DTree) :
    freesOf (releaseEvents t) = releaseOrder t := by
  cases t with
  | node i cs d =>
      have hf := freesOf_releaseEventsF cs
      have hd := freesOf_releaseEventsD d
      have htail : freesOf [REvent.clearRelease i, REvent.freeNode i] = [i] := rfl
      simp only [releaseEvents, releaseOrder, freesOf_append, hf, hd, htail]
/-- Forest version of `freesOf_releaseEvents`. -/
theorem freesOf_releaseEventsF (f : DForest) :
    freesOf (releaseEventsF f) = releaseOrderF f := by
  cases f with
  | nil => rfl
  | cons t ts =>
      have h1 := freesOf_releaseEvents t
      have h2 := freesOf_releaseEventsF ts
      simp only [releaseEventsF, releaseOrderF, freesOf_append, h1, h2]
/-- Dictionary version of `freesOf_releaseEvents`. -/
theorem freesOf_releaseEventsD (d : DDict) :
    freesOf (releaseEventsD d) = releaseOrderD d := by
  cases d with
  | nodict => rfl
  | dict t => exact freesOf_releaseEvents t
end

mutual
/-- For every node of the tree, the release-event trace performs the
write of the null sentinel into that node's `release` field before the
deallocation of that node. -/
theorem clearFree_sublist (t : DTree) :
    ∀ i ∈ nodesOf t,
      List.Sublist [REvent.clearRelease i, REvent.freeNode i]
        (releaseEvents t) := by
  cases t with
  | node j cs d =>
      intro i hi
      simp only [nodesOf, List.mem_cons, List.mem_append] at hi
      simp only [releaseEvents]
      rcases hi with h | h | h
      · subst h
        exact List.sublist_append_right
          (releaseEventsF cs ++ releaseEventsD d) _
      · exact ((clearFree_sublistF cs i h).trans
          (List.sublist_append_left (releaseEventsF cs)
            (releaseEventsD d))).trans
          (List.sublist_append_left
            (releaseEventsF cs ++ releaseEventsD d) _)
      · exact ((clearFree_sublistD d i h).trans
          (List.sublist_append_right (releaseEventsF cs)
            (releaseEventsD d))).trans
          (List.sublist_append_left
            (releaseEventsF cs ++ releaseEventsD d) _)
/-- Forest version of `clearFree_sublist`. -/
theorem clearFree_sublistF (f : DForest) :
    ∀ i ∈ nodesOfF f,
      List.Sublist [REvent.clearRelease i, REvent.freeNode i]
        (releaseEventsF f) := by
  cases f with
  | nil => simp [nodesOfF]
  | cons t ts =>
      intro i hi
      simp only [nodesOfF, List.mem_append] at hi
      simp only [releaseEventsF]
      rcases hi with h | h
      · exact (clearFree_sublist t i h).trans
          (List.sublist_append_left (releaseEvents t) _)
      · exact (clearFree_sublistF ts i h).trans
          (List.sublist_append_right (releaseEvents t) _)
/-- Dictionary version of `clearFree_sublist`. -/
theorem clearFree_sublistD (d : DDict) :
    ∀ i ∈ nodesOfD d,
      List.Sublist [REvent.clearRelease i, REvent.freeNode i]
        (releaseEventsD d) := by
  cases d with
  | nodict => simp [nodesOfD]
  | dict t => exact clearFree_sublist t
end

mutual
/-- Both endpoints of an ownership edge occur in the release order. -/
theorem edges_mem (t : DTree) :
    ∀ c p : Nat, (c, p) ∈ edgesOf t →
      c ∈ releaseOrder t ∧ p ∈ releaseOrder t := by
  cases t with
  | node i cs d =>
      intro c p hcp
      simp only [edgesOf, List.mem_append, List.mem_map] at hcp
      rcases hcp with ⟨x, hx, hxe⟩ | h | h
      · have hc : x = c := congrArg Prod.fst hxe
        have hp : i = p := congrArg Prod.snd hxe
        rcases hx with hx | hx
        · have hmem := rootsF_mem_releaseOrderF cs x hx
          constructor
          · rw [← hc]
            simp [releaseOrder, hmem]
          · rw [← hp]
            simp [releaseOrder]
        · have hmem := rootsD_mem_releaseOrderD d x hx
          constructor
          · rw [← hc]
            simp [releaseOrder, hmem]
          · rw [← hp]
            simp [releaseOrder]
      · have hm := edges_memF cs c p h
        constructor
        · simp [releaseOrder, hm.1]
        · simp [releaseOrder, hm.2]
      · have hm := edges_memD d c p h
        constructor
        · simp [releaseOrder, hm.1]
        · simp [releaseOrder, hm.2]
/-- Forest version of `edges_mem`. -/
theorem edges_memF (f : DForest) :
    ∀ c p : Nat, (c, p) ∈ edgesOfF f →
      c ∈ releaseOrderF f ∧ p ∈ releaseOrderF f := by
  cases f with
  | nil => simp [edgesOfF]
  | cons t ts =>
      intro c p hcp
      simp only [edgesOfF, List.mem_append] at hcp
      rcases hcp with h | h
      · have hm := edges_mem t c p h
        constructor
        · simp [releaseOrderF, hm.1]
        · simp [releaseOrderF, hm.2]
      · have hm := edges_memF ts c p h
        constructor
        · simp [releaseOrderF, hm.1]
        · simp [releaseOrderF, hm.2]
/-- Dictionary version of `edges_mem`. -/
theorem edges_memD (d : DDict) :
    ∀ c p : Nat, (c, p) ∈ edgesOfD d →
      c ∈ releaseOrderD d ∧ p ∈ releaseOrderD d := by
  cases d with
  | nodict => simp [edgesOfD]
  | dict t => exact edges_mem t
end

mutual
/-- In a duplicate-free release order, every owned node is deallocated
strictly before its owner. -/
theorem releaseOrder_edge_lt (t : DTree)
    (hnd : (releaseOrder t).Nodup) :
    ∀ c p : Nat, (c, p) ∈ edgesOf t →
      (releaseOrder t).indexOf c < (releaseOrder t).indexOf p := by
  cases t with
  | node i cs d =>
      intro c p hcp
      have hL : releaseOrder (DTree.node i cs d)
          = (releaseOrderF cs ++ releaseOrderD d) ++ [i] := by
        simp [releaseOrder]
      rw [hL] at hnd ⊢
      rcases List.nodup_append.mp hnd with ⟨hab, _, hdisj⟩
      rcases List.nodup_append.mp hab with ⟨ha, hb, hdisjAB⟩
      have hiAB : i ∉ releaseOrderF cs ++ releaseOrderD d := by
        intro hmem
        exact hdisj hmem (List.mem_singleton_self i)
      have hIdxI : ((releaseOrderF cs ++ releaseOrderD d) ++ [i]).indexOf i
          = (releaseOrderF cs ++ releaseOrderD d).length := by
        rw [List.indexOf_append_of_not_mem hiAB]
        simp
      simp only [edgesOf, List.mem_append, List.mem_map] at hcp
      rcases hcp with ⟨x, hx, hxe⟩ | h | h
      · have hc : x = c := congrArg Prod.fst hxe
        have hp : i = p := congrArg Prod.snd hxe
        subst hc
        subst hp
        rw [hIdxI]
        rcases hx with hx | hx
        · have hxA := rootsF_mem_releaseOrderF cs x hx
          have hxAB : x ∈ releaseOrderF cs ++ releaseOrderD d :=
            List.mem_append_left _ hxA
          rw [List.indexOf_append_of_mem hxAB,
            List.indexOf_append_of_mem hxA]
          have hlt := List.indexOf_lt_length.mpr hxA
          simp only [List.length_append]
          omega
        · have hxB := rootsD_mem_releaseOrderD d x hx
          have hxA : x ∉ releaseOrderF cs := fun hmem => hdisjAB hmem hxB
          have hxAB : x ∈ releaseOrderF cs ++ releaseOrderD d :=
            List.mem_append_right _ hxB
          rw [List.indexOf_append_of_mem hxAB,
            List.indexOf_append_of_not_mem hxA]
          have hlt := List.indexOf_lt_length.mpr hxB
          simp only [List.length_append]
          omega
      · have hm := edges_memF cs c p h
        rw [List.indexOf_append_of_mem (List.mem_append_left _ hm.1),
          List.indexOf_append_of_mem hm.1,
          List.indexOf_append_of_mem (List.mem_append_left _ hm.2),
          List.indexOf_append_of_mem hm.2]
        exact releaseOrder_edge_ltF cs ha c p h
      · have hm := edges_memD d c p h
        have hcA : c ∉ releaseOrderF cs := fun hmem => hdisjAB hmem hm.1
        have hpA : p ∉ releaseOrderF cs := fun hmem => hdisjAB hmem hm.2
        rw [List.indexOf_append_of_mem (List.mem_append_right _ hm.1),
          List.indexOf_append_of_not_mem hcA,
          List.indexOf_append_of_mem (List.mem_append_right _ hm.2),
          List.indexOf_append_of_not_mem hpA]
        exact Nat.add_lt_add_left (releaseOrder_edge_ltD d hb c p h) _
/-- Forest version of `releaseOrder_edge_lt`. -/
theorem releaseOrder_edge_ltF (f : DForest)
    (hnd : (releaseOrderF f).Nodup) :
    ∀ c p : Nat, (c, p) ∈ edgesOfF f →
      (releaseOrderF f).indexOf c < (releaseOrderF f).indexOf p := by
  cases f with
  | nil =>
      intro c p h
      simp [edgesOfF] at h
  | cons t ts =>
      intro c p hcp
      have hL : releaseOrderF (DForest.cons t ts)
          = releaseOrder t ++ releaseOrderF ts := by
        simp [releaseOrderF]
      rw [hL] at hnd ⊢
      rcases List.nodup_append.mp hnd with ⟨h1, h2, hdisj⟩
      simp only [edgesOfF, List.mem_append] at hcp
      rcases hcp with h | h
      · have hm := edges_mem t c p h
        rw [List.indexOf_append_of_mem hm.1,
          List.indexOf_append_of_mem hm.2]
        exact releaseOrder_edge_lt t h1 c p h
      · have hm := edges_memF ts c p h
        have hcT : c ∉ releaseOrder t := fun hmem => hdisj hmem hm.1
        have hpT : p ∉ releaseOrder t := fun hmem => hdisj hmem hm.2
        rw [List.indexOf_append_of_not_mem hcT,
          List.indexOf_append_of_not_mem hpT]
        exact Nat.add_lt_add_left (releaseOrder_edge_ltF ts h2 c p h) _
/-- Dictionary version of `releaseOrder_edge_lt`. -/
theorem releaseOrder_edge_ltD (d : DDict)
    (hnd : (releaseOrderD d).Nodup) :
    ∀ c p : Nat, (c, p) ∈ edgesOfD d →
      (releaseOrderD d).indexOf c < (releaseOrderD d).indexOf p := by
  cases d with
  | nodict =>
      intro c p h
      simp [edgesOfD] at h
  | dict t => exact releaseOrder_edge_lt t hnd
end

/-- C1: for every non-null schema reference and every non-null array
reference, the respective clear operation sets the node's `release`
field to the null sentinel, leaves every other field unchanged, performs
no recursive action and deallocates nothing (its effect trace is exactly
the single store of the `release` field). -/
theorem claim_C1_clear_sets_only_release (s : ArrowSchema) (a : ArrowArray) :
    (∃ s2 : ArrowSchema,
      ArrowSwiftClearReleaseSchemaTrace (some s) =
        (some s2, [CStep.storeRelease]) ∧
      s2.release = 0 ∧ s2.format = s.format ∧ s2.name = s.name ∧
      s2.metadata = s.metadata ∧ s2.flags = s.flags ∧
      s2.n_children = s.n_children ∧ s2.children = s.children ∧
      s2.dictionary = s.dictionary ∧ s2.private_data = s.private_data) ∧
    (∃ a2 : ArrowArray,
      ArrowSwiftClearReleaseArrayTrace (some a) =
        (some a2, [CStep.storeRelease]) ∧
      a2.release = 0 ∧ a2.length = a.length ∧ a2.null_count = a.null_count ∧
      a2.offset = a.offset ∧ a2.n_buffers = a.n_buffers ∧
      a2.n_children = a.n_children ∧ a2.buffers = a.buffers ∧
      a2.children = a.children ∧ a2.dictionary = a.dictionary ∧
      a2.private_data = a.private_data) := by
  constructor
  · exact ⟨{ s with release := 0 }, rfl, rfl, rfl, rfl, rfl, rfl, rfl,
      rfl, rfl, rfl⟩
  · exact ⟨{ a with release := 0 }, rfl, rfl, rfl, rfl, rfl, rfl, rfl,
      rfl, rfl, rfl, rfl⟩

/-- C2: calling either clear operation with a null reference performs no
memory access (its effect trace is empty) and returns normally (with the
null reference unchanged). -/
theorem claim_C2_clear_null_noop :
    ArrowSwiftClearReleaseSchemaTrace none = (none, []) ∧
    ArrowSwiftClearReleaseArrayTrace none = (none, []) :=
  ⟨rfl, rfl⟩

/-- C3: for every live node with pairwise distinct node identities,
running the release protocol once releases every transitively owned
child and the dictionary node exactly once each (the sequence of
deallocations is a permutation of the node set and duplicate-free), in
children-before-parent order (every owned node is deallocated strictly
before its owner), and writes the null sentinel into each node's own
`release` field before deallocating that node. -/
theorem claim_C3_release_protocol (t : DTree) (h : (nodesOf t).Nodup) :
    (releaseOrder t).Perm (nodesOf t) ∧
    (releaseOrder t).Nodup ∧
    (∀ c p : Nat, (c, p) ∈ edgesOf t →
      (releaseOrder t).indexOf c < (releaseOrder t).indexOf p) ∧
    (∀ i ∈ nodesOf t,
      List.Sublist [REvent.clearRelease i, REvent.freeNode i]
        (releaseEvents t)) ∧
    freesOf (releaseEvents t) = releaseOrder t := by
  have hperm := releaseOrder_perm t
  have hnd : (releaseOrder t).Nodup := hperm.nodup_iff.mpr h
  exact ⟨hperm, hnd, releaseOrder_edge_lt t hnd, clearFree_sublist t,
    freesOf_releaseEvents t⟩

/-- Witness for C3: a struct node with two primitive children and a
dictionary node, all identities distinct. -/
theorem claim_C3_release_protocol_witness :
    (nodesOf (DTree.node 0
      (DForest.cons (DTree.node 1 DForest.nil DDict.nodict)
        (DForest.cons (DTree.node 2 DForest.nil DDict.nodict)
          DForest.nil))
      (DDict.dict (DTree.node 3 DForest.nil DDict.nodict)))).Nodup ∧
    (releaseOrder (DTree.node 0
      (DForest.cons (DTree.node 1 DForest.nil DDict.nodict)
        (DForest.cons (DTree.node 2 DForest.nil DDict.nodict)
          DForest.nil))
      (DDict.dict (DTree.node 3 DForest.nil DDict.nodict)))).Perm
    (nodesOf (DTree.node 0
      (DForest.cons (DTree.node 1 DForest.nil DDict.nodict)
        (DForest.cons (DTree.node 2 DForest.nil DDict.nodict)
          DForest.nil))
      (DDict.dict (DTree.node 3 DForest.nil DDict.nodict)))) :=
  ⟨by decide,
    (claim_C3_release_protocol (DTree.node 0
      (DForest.cons (DTree.node 1 DForest.nil DDict.nodict)
        (DForest.cons (DTree.node 2 DForest.nil DDict.nodict)
          DForest.nil))
      (DDict.dict (DTree.node 3 DForest.nil DDict.nodict)))
      (by decide)).1⟩

/-- C4: the flag bit positions recognized on a schema descriptor are
exactly bit 0 (dictionary-ordered), bit 1 (nullable) and bit 2
(map-keys-sorted). -/
theorem claim_C4_flag_bit_positions :
    ARROW_FLAG_DICTIONARY_ORDERED = 2 ^ 0 ∧
    ARROW_FLAG_NULLABLE = 2 ^ 1 ∧
    ARROW_FLAG_MAP_KEYS_SORTED = 2 ^ 2 := by
  refine ⟨?_, ?_, ?_⟩ <;> rfl

/-- C5: both descriptor structs have the fixed field order of the
published C Data Interface, with all lengths, counts and flags declared
as 64-bit signed integers and trailing `release` and `private_data`
fields. -/
theorem claim_C5_struct_field_order :
    ArrowSchemaFields.map Prod.fst = specSchemaFieldOrder ∧
    ArrowArrayFields.map Prod.fst = specArrayFieldOrder ∧
    (ArrowSchemaFields.filter (fun f => f.2 == CType.int64)).map Prod.fst
      = ["flags", "n_children"] ∧
    (ArrowArrayFields.filter (fun f => f.2 == CType.int64)).map Prod.fst
      = ["length", "null_count", "offset", "n_buffers", "n_children"] ∧
    (ArrowSchemaFields.map Prod.fst).drop 7 = ["release", "private_data"] ∧
    (ArrowArrayFields.map Prod.fst).drop 8 = ["release", "private_data"] := by
  refine ⟨?_, ?_, ?_, ?_, ?_, ?_⟩ <;> rfl

/-- C6: both clear operations terminate and return normally on every
input, null or non-null, performing at most one bounded step and never
blocking or suspending. -/
theorem claim_C6_terminates_no_blocking
    (ps : Option ArrowSchema) (pa : Option ArrowArray) :
    (ArrowSwiftClearReleaseSchemaTrace ps).2.length ≤ 1 ∧
    CStep.block ∉ (ArrowSwiftClearReleaseSchemaTrace ps).2 ∧
    CStep.suspend ∉ (ArrowSwiftClearReleaseSchemaTrace ps).2 ∧
    (ArrowSwiftClearReleaseArrayTrace pa).2.length ≤ 1 ∧
    CStep.block ∉ (ArrowSwiftClearReleaseArrayTrace pa).2 ∧
    CStep.suspend ∉ (ArrowSwiftClearReleaseArrayTrace pa).2 := by
  cases ps <;> cases pa <;>
    simp [ArrowSwiftClearReleaseSchemaTrace, ArrowSwiftClearReleaseArrayTrace]

/-- C7: on any reference, null or non-null, the adapter operations never
invoke the release callback and never deallocate memory: neither a
callback invocation nor a deallocation appears in their effect traces,
regardless of the prior value of the `release` field. -/
theorem claim_C7_no_ownership_action
    (ps : Option ArrowSchema) (pa : Option ArrowArray) :
    CStep.callRelease ∉ (ArrowSwiftClearReleaseSchemaTrace ps).2 ∧
    CStep.freeMem ∉ (ArrowSwiftClearReleaseSchemaTrace ps).2 ∧
    CStep.callRelease ∉ (ArrowSwiftClearReleaseArrayTrace pa).2 ∧
    CStep.freeMem ∉ (ArrowSwiftClearReleaseArrayTrace pa).2 := by
  cases ps <;> cases pa <;>
    simp [ArrowSwiftClearReleaseSchemaTrace, ArrowSwiftClearReleaseArrayTrace]

/-- C8: both clear operations are idempotent: applying either one twice
to any reference yields the same result as applying it once. -/
theorem claim_C8_clear_idempotent
    (ps : Option ArrowSchema) (pa : Option ArrowArray) :
    ArrowSwiftClearReleaseSchema (ArrowSwiftClearReleaseSchema ps) =
      ArrowSwiftClearReleaseSchema ps ∧
    ArrowSwiftClearReleaseArray (ArrowSwiftClearReleaseArray pa) =
      ArrowSwiftClearReleaseArray pa := by
  cases ps <;> cases pa <;>
    simp [ArrowSwiftClearReleaseSchema, ArrowSwiftClearReleaseArray]

/-- C9: the three flag constants are pairwise distinct single-bit masks
with pairwise-zero bitwise AND, any subset of them can be stored in one
flags word by bitwise OR, and each flag is recovered independently by
bitwise AND. -/
theorem claim_C9_flags_disjoint_masks :
    ARROW_FLAG_DICTIONARY_ORDERED ≠ ARROW_FLAG_NULLABLE ∧
    ARROW_FLAG_DICTIONARY_ORDERED ≠ ARROW_FLAG_MAP_KEYS_SORTED ∧
    ARROW_FLAG_NULLABLE ≠ ARROW_FLAG_MAP_KEYS_SORTED ∧
    Int.land ARROW_FLAG_DICTIONARY_ORDERED ARROW_FLAG_NULLABLE = 0 ∧
    Int.land ARROW_FLAG_DICTIONARY_ORDERED ARROW_FLAG_MAP_KEYS_SORTED = 0 ∧
    Int.land ARROW_FLAG_NULLABLE ARROW_FLAG_MAP_KEYS_SORTED = 0 ∧
    (∀ bd bn bm : Bool,
      (Int.land
        (Int.lor
          (Int.lor (if bd then ARROW_FLAG_DICTIONARY_ORDERED else 0)
            (if bn then ARROW_FLAG_NULLABLE else 0))
          (if bm then ARROW_FLAG_MAP_KEYS_SORTED else 0))
        ARROW_FLAG_DICTIONARY_ORDERED ≠ 0 ↔ bd = true) ∧
      (Int.land
        (Int.lor
          (Int.lor (if bd then ARROW_FLAG_DICTIONARY_ORDERED else 0)
            (if bn then ARROW_FLAG_NULLABLE else 0))
          (if bm then ARROW_FLAG_MAP_KEYS_SORTED else 0))
        ARROW_FLAG_NULLABLE ≠ 0 ↔ bn = true) ∧
      (Int.land
        (Int.lor
          (Int.lor (if bd then ARROW_FLAG_DICTIONARY_ORDERED else 0)
            (if bn then ARROW_FLAG_NULLABLE else 0))
          (if bm then ARROW_FLAG_MAP_KEYS_SORTED else 0))
        ARROW_FLAG_MAP_KEYS_SORTED ≠ 0 ↔ bm = true)) := by
  refine ⟨by decide, by decide, by decide, by decide, by decide, by decide, ?_⟩
  intro bd bn bm
  cases bd <;> cases bn <;> cases bm <;>
    exact ⟨by decide, by decide, by decide⟩

/-- C10: both clear operations are deterministic and local: the
resulting state of the passed-in descriptor cell depends only on that
cell's prior contents, and no heap cell other than the one passed in is
modified. -/
theorem claim_C10_deterministic_local :
    (∀ (h1 h2 : Nat → Option ArrowSchema) (p : Nat), h1 p = h2 p →
      ArrowSwiftClearReleaseSchemaHeap h1 p p =
        ArrowSwiftClearReleaseSchemaHeap h2 p p) ∧
    (∀ (h : Nat → Option ArrowSchema) (p q : Nat), q ≠ p →
      ArrowSwiftClearReleaseSchemaHeap h p q = h q) ∧
    (∀ (h1 h2 : Nat → Option ArrowArray) (p : Nat), h1 p = h2 p →
      ArrowSwiftClearReleaseArrayHeap h1 p p =
        ArrowSwiftClearReleaseArrayHeap h2 p p) ∧
    (∀ (h : Nat → Option ArrowArray) (p q : Nat), q ≠ p →
      ArrowSwiftClearReleaseArrayHeap h p q = h q) := by
  refine ⟨?_, ?_, ?_, ?_⟩
  · intro h1 h2 p hp
    by_cases h0 : p = 0
    · subst h0
      simp [ArrowSwiftClearReleaseSchemaHeap, hp]
    · simp [ArrowSwiftClearReleaseSchemaHeap, h0, hp]
  · intro h p q hq
    by_cases h0 : p = 0 <;>
      simp [ArrowSwiftClearReleaseSchemaHeap, h0, hq]
  · intro h1 h2 p hp
    by_cases h0 : p = 0
    · subst h0
      simp [ArrowSwiftClearReleaseArrayHeap, hp]
    · simp [ArrowSwiftClearReleaseArrayHeap, h0, hp]
  · intro h p q hq
    by_cases h0 : p = 0 <;>
      simp [ArrowSwiftClearReleaseArrayHeap, h0, hq]

/-- Witness for C10: two concrete heaps agreeing at address 1 yield the
same cleared cell there, and a cell at a different address is untouched. -/
theorem claim_C10_deterministic_local_witness :
    ((fun n => if n = 1 then some (ArrowSchema.mk 1 2 3 4 5 6 7 8 9)
        else none) : Nat → Option ArrowSchema) 1 =
      ((fun n => if n = 1 then some (ArrowSchema.mk 1 2 3 4 5 6 7 8 9)
        else some (ArrowSchema.mk 9 8 7 6 5 4 3 2 1)) :
          Nat → Option ArrowSchema) 1 ∧
    ArrowSwiftClearReleaseSchemaHeap
      (fun n => if n = 1 then some (ArrowSchema.mk 1 2 3 4 5 6 7 8 9)
        else none) 1 1 =
    ArrowSwiftClearReleaseSchemaHeap
      (fun n => if n = 1 then some (ArrowSchema.mk 1 2 3 4 5 6 7 8 9)
        else some (ArrowSchema.mk 9 8 7 6 5 4 3 2 1)) 1 1 ∧
    (2 : Nat) ≠ 1 ∧
    ArrowSwiftClearReleaseArrayHeap
      (fun _ => (none : Option ArrowArray)) 1 2 =
      (fun _ => (none : Option ArrowArray)) 2 :=
  ⟨rfl,
    claim_C10_deterministic_local.1
      (fun n => if n = 1 then some (ArrowSchema.mk 1 2 3 4 5 6 7 8 9)
        else none)
      (fun n => if n = 1 then some (ArrowSchema.mk 1 2 3 4 5 6 7 8 9)
        else some (ArrowSchema.mk 9 8 7 6 5 4 3 2 1)) 1 rfl,
    by decide,
    claim_C10_deterministic_local.2.2.2
      (fun _ => (none : Option ArrowArray)) 1 2 (by decide)⟩
